import Mathlib

set_option maxHeartbeats 1000000

/-!
Shallow embedding of the tipme voucher service (Go) and proofs about it.

Modelling conventions, used throughout:
* Instants of `time.Time` are integers (one unit = one second); `a.After b`
  is `a > b` and `a.Add (d * time.Second)` is `a + d`.
* Go `int64` money amounts (millisatoshis) are `Int`; no computation here
  approaches 2^63, so plain integers are faithful.
* Go `float64` appears only in the funding-fee computation; it is modelled
  by exact rationals (`ℚ`), which agrees with the float computation at every
  input considered here.
* The SQLite store is a pure value (`DBState`); each transactional Go
  operation becomes a function from state to state (plus result), and a
  failing transaction returns the unchanged state (rollback).
-/

/-- `Voucher` mirrors the `Voucher` struct of `db.go` (the `CreationHash`
back-reference is dropped: no claim mentions it). -/
structure Voucher where
  PayID : String
  WithdrawID : String
  LightningAddress : String
  TotalPaidMsats : Int
  LastFundedAt : Option Int
  ExpirySeconds : Int
  Active : Bool
  CreatedAt : Int
deriving Repr, DecidableEq

/-- `Voucher.IsActive` from `db.go`: early-returns `false` when the `Active`
flag is clear, when `now` is strictly after `CreatedAt + absExpirySecs`
(`cfg.VoucherAbsoluteExpirySecs`), or when `LastFundedAt` is set and `now`
is strictly after `LastFundedAt + ExpirySeconds`; otherwise `true`. -/
def Voucher.IsActive (v : Voucher) (absExpirySecs now : Int) : Bool :=
  if !v.Active then false
  else if now > v.CreatedAt + absExpirySecs then false
  else
    match v.LastFundedAt with
    | some lf => if now > lf + v.ExpirySeconds then false else true
    | none => true

/-- The row-selection predicate of `GetExpiredVouchersForRefund` in `db.go`:
`active=1 AND total_paid_msats>0 AND ((last_funded_at IS NOT NULL AND
now - last_funded_at >= expiry_seconds) OR (now - created_at >= absExpiry))`. -/
def refundSelectPred (absExpirySecs now : Int) (v : Voucher) : Bool :=
  v.Active && decide (0 < v.TotalPaidMsats) &&
    ((match v.LastFundedAt with
      | some lf => decide (v.ExpirySeconds ≤ now - lf)
      | none => false)
     || decide (absExpirySecs ≤ now - v.CreatedAt))

/-- `GetExpiredVouchersForRefund` over a table of vouchers: the rows
matching the selection predicate. -/
def GetExpiredVouchersForRefund (absExpirySecs now : Int) (vs : List Voucher) :
    List Voucher :=
  vs.filter (refundSelectPred absExpirySecs now)

/-- The funding-fee computation of `handleLNURLPayCallback` in `handlers.go`:
`feeMsats := int64(float64(cfg.FundingFeeMinMsats) +
math.Floor(float64(amountMsats)*cfg.FundingFeePercent))`, i.e. the minimum
fee is ADDED to the percentage fee. -/
def fundingFeeMsats (minMsats : Int) (pct : ℚ) (amountMsats : Int) : Int :=
  minMsats + ⌊(amountMsats : ℚ) * pct⌋

/-- Modelled from the spec: the fee rule the specification states for the
funding callback, `max(minimum_fee, floor(amount × fee_percent))`.  Written
here only to be compared with `fundingFeeMsats`, the formula the code uses. -/
def specFundingFeeMsats (minMsats : Int) (pct : ℚ) (amountMsats : Int) : Int :=
  max minMsats ⌊(amountMsats : ℚ) * pct⌋

/-- The fee/rejection slice of `handleLNURLPayCallback`: compute the fee,
subtract it, and reject with the LNURL error when nothing would be left. -/
def payCallbackFee (minMsats : Int) (pct : ℚ) (amountMsats : Int) :
    Except String (Int × Int) :=
  let feeMsats := fundingFeeMsats minMsats pct amountMsats
  let creditedMsats := amountMsats - feeMsats
  if creditedMsats ≤ 0 then .error "amount too small to cover fee"
  else .ok (feeMsats, creditedMsats)

/-- LNURL-Pay parameters resolved from a lightning address (`lnurl.go`). -/
structure LNURLPayParams where
  Callback : String
  MinSendable : Int
  MaxSendable : Int
deriving Repr, DecidableEq

/-- External interactions `RefundToLightningAddress` can perform after
resolving the address: fetching an invoice from the target's LNURL-Pay
callback, and paying that invoice through the gateway. -/
inductive GatewayEvent where
  | invoiceRequest (callback : String) (amountMsats : Int)
  | payInvoice (invoice : String)
deriving Repr, DecidableEq

/-- `RefundToLightningAddress` from `lnurl.go`, with the three external
collaborators (address resolution, the remote LNURL callback, the gateway
`PayInvoice`) supplied as parameters.  Returns the Go error result together
with the trace of gateway-facing calls actually made.  `Int.tdiv` is Go's
`/` on `int64` (truncation toward zero). -/
def RefundToLightningAddress (resolution : Except String LNURLPayParams)
    (invoiceResult : Except String String) (payResult : Except String Unit)
    (amountMsats : Int) : Except String Unit × List GatewayEvent :=
  match resolution with
  | .error e => (.error ("resolve address: " ++ e), [])
  | .ok params =>
    if amountMsats < params.MinSendable then
      (.error "refund amount is below target minSendable (dust)", [])
    else
      let capped := if amountMsats > params.MaxSendable then params.MaxSendable
                    else amountMsats
      let rounded := (capped.tdiv 1000) * 1000
      match invoiceResult with
      | .error e => (.error ("get invoice from callback: " ++ e),
                     [.invoiceRequest params.Callback rounded])
      | .ok invoice =>
        (payResult, [.invoiceRequest params.Callback rounded, .payInvoice invoice])

/-- `WithdrawSession` mirrors a `withdraw_sessions` row (`db.go`): the
one-time nonce `k1` (primary key), the owning `withdraw_id`, and the `used`
flag. -/
structure WithdrawSession where
  k1 : String
  withdrawID : String
  used : Bool
deriving Repr, DecidableEq

/-- The persistent store: the `vouchers` and `withdraw_sessions` tables.
Rows are listed in key order of insertion; primary-key lookups are `find?`. -/
structure DBState where
  vouchers : List Voucher
  sessions : List WithdrawSession
deriving Repr, DecidableEq

/-- `GetVoucherByPayID` (`db.go`). -/
def findVoucherByPayID (db : DBState) (payID : String) : Option Voucher :=
  db.vouchers.find? (fun v => v.PayID == payID)

/-- `GetVoucherByWithdrawID` (`db.go`). -/
def findVoucherByWithdrawID (db : DBState) (withdrawID : String) : Option Voucher :=
  db.vouchers.find? (fun v => v.WithdrawID == withdrawID)

/-- The `SELECT ... FROM withdraw_sessions WHERE k1=?` lookup (`db.go`). -/
def findSession (db : DBState) (k1 : String) : Option WithdrawSession :=
  db.sessions.find? (fun s => s.k1 == k1)

/-- `DeactivateVoucher` / `DeactivateVoucherTx` (`db.go`):
`UPDATE vouchers SET total_paid_msats=0, active=0 WHERE pay_id=?`. -/
def DeactivateVoucher (db : DBState) (payID : String) : DBState :=
  { db with vouchers := db.vouchers.map (fun v =>
      if v.PayID == payID then { v with TotalPaidMsats := 0, Active := false }
      else v) }

/-- `ReactivateVoucher` (`db.go`):
`UPDATE vouchers SET total_paid_msats=?, active=1 WHERE pay_id=?`. -/
def ReactivateVoucher (db : DBState) (payID : String) (balanceMsats : Int) :
    DBState :=
  { db with vouchers := db.vouchers.map (fun v =>
      if v.PayID == payID then
        { v with TotalPaidMsats := balanceMsats, Active := true }
      else v) }

/-- `CreditVoucherTx` (`db.go`): adds `creditedMsats` to the balance and sets
`last_funded_at` to the current time (the `pay_invoices` table is not
modelled; no claim reads it). -/
def CreditVoucherTx (db : DBState) (payID : String) (creditedMsats now : Int) :
    DBState :=
  { db with vouchers := db.vouchers.map (fun v =>
      if v.PayID == payID then
        { v with TotalPaidMsats := v.TotalPaidMsats + creditedMsats,
                 LastFundedAt := some now }
      else v) }

/-- `InsertWithdrawSession` (`db.go`): INSERT a fresh unused session.  `k1`
is the table's primary key, so the insert only applies to a `k1` not already
present (enforced as a hypothesis of the corresponding `DBStep`). -/
def InsertWithdrawSession (db : DBState) (k1 withdrawID : String) : DBState :=
  { db with sessions := { k1 := k1, withdrawID := withdrawID, used := false }
      :: db.sessions }

/-- The distinct failures of `ValidateAndUseWithdrawSession` (`db.go`). -/
inductive SessionError where
  | k1NotFound
  | k1Mismatch
  | k1AlreadyUsed
  | voucherNotFound
deriving Repr, DecidableEq

/-- The `fmt.Errorf` message attached to each session failure (`db.go`). -/
def SessionError.message : SessionError → String
  | .k1NotFound => "k1 not found"
  | .k1Mismatch => "k1 mismatch"
  | .k1AlreadyUsed => "k1 already used"
  | .voucherNotFound => "voucher not found for withdraw_id"

/-- `ValidateAndUseWithdrawSession` (`db.go`): inside one transaction, check
the session exists, belongs to `withdrawID` and is unused; mark it used; and
return the owning voucher's `pay_id`.  Any failure rolls the transaction
back, so an error leaves the store unchanged. -/
def ValidateAndUseWithdrawSession (db : DBState) (k1 withdrawID : String) :
    Except SessionError (String × DBState) :=
  match findSession db k1 with
  | none => .error .k1NotFound
  | some s =>
    if s.withdrawID ≠ withdrawID then .error .k1Mismatch
    else if s.used then .error .k1AlreadyUsed
    else
      match findVoucherByWithdrawID db withdrawID with
      | none => .error .voucherNotFound
      | some v =>
        .ok (v.PayID, { db with sessions := db.sessions.map (fun t =>
          if t.k1 == k1 then { t with used := true } else t) })

/-- One mutating store operation, as performed anywhere in the program:
session insertion (withdraw step 1), session consumption (withdraw
callback), crediting (funding confirmation), deactivation (withdraw
success / ambiguous outcome / refund job), reactivation (refund definitive
failure), and voucher batch insertion (creation flow). -/
inductive DBStep : DBState → DBState → Prop
  | insertSession (db : DBState) (k1 withdrawID : String)
      (hfresh : findSession db k1 = none) :
      DBStep db (InsertWithdrawSession db k1 withdrawID)
  | useSession (db : DBState) (k1 withdrawID payID : String) (db1 : DBState)
      (h : ValidateAndUseWithdrawSession db k1 withdrawID = .ok (payID, db1)) :
      DBStep db db1
  | credit (db : DBState) (payID : String) (creditedMsats now : Int) :
      DBStep db (CreditVoucherTx db payID creditedMsats now)
  | deactivate (db : DBState) (payID : String) :
      DBStep db (DeactivateVoucher db payID)
  | reactivate (db : DBState) (payID : String) (balanceMsats : Int) :
      DBStep db (ReactivateVoucher db payID balanceMsats)
  | insertVouchers (db : DBState) (vs : List Voucher) :
      DBStep db { db with vouchers := db.vouchers ++ vs }

/-- Reachability of one store state from another by any number of store
operations. -/
def DBReach : DBState → DBState → Prop := Relation.ReflTransGen DBStep

/-- Gateway `PayInvoice` outcomes as classified by the callers (`errors.Is
ctx.DeadlineExceeded / ctx.Canceled` is the ambiguous class; any other
error is a definitive failure). -/
inductive PayOutcome where
  | success
  | definitiveFailure
  | ambiguousTimeout
deriving Repr, DecidableEq

/-- The LNURL responses `handleLNURLWithdrawCallback` can write. -/
inductive WithdrawResponse where
  | ok
  | errMissingParams
  | errSession (e : SessionError)
  | errVoucherNotFound
  | errNotActive
  | errNoBalance
  | errPaymentFailed
  | errPaymentTimedOut
deriving Repr, DecidableEq

/-- The JSON body written for each response — the `status` and `reason`
fields produced by `writeJSON` / `lnurlError` in `handlers.go` (every LNURL
response is HTTP 200, so the body is all a wallet sees). -/
def WithdrawResponse.body : WithdrawResponse → String × String
  | .ok => ("OK", "")
  | .errMissingParams => ("ERROR", "missing k1 or pr parameter")
  | .errSession e => ("ERROR", "invalid or already-used k1: " ++ e.message)
  | .errVoucherNotFound => ("ERROR", "voucher not found")
  | .errNotActive => ("ERROR", "voucher is not active")
  | .errNoBalance => ("ERROR", "voucher has no balance")
  | .errPaymentFailed => ("ERROR", "payment failed")
  | .errPaymentTimedOut => ("ERROR", "payment timed out")

/-- One run of the withdraw callback: the response written, whether the
gateway `PayInvoice` was invoked, and the resulting store. -/
structure CallbackRun where
  response : WithdrawResponse
  payInvoked : Bool
  db : DBState
deriving Repr, DecidableEq

/-- `handleLNURLWithdrawCallback` (`handlers.go`): parameter check, atomic
session consumption, voucher re-check (active, positive balance), then
gateway payment and outcome classification.  `outcome` is what the gateway
returns if `PayInvoice` is reached; `deactivateFails` says whether the
deactivation write afterwards fails (a storage error, which the code logs
and survives). -/
def handleLNURLWithdrawCallback (db : DBState) (absExpirySecs now : Int)
    (withdrawID k1 pr : String) (outcome : PayOutcome)
    (deactivateFails : Bool) : CallbackRun :=
  if k1 = "" ∨ pr = "" then ⟨.errMissingParams, false, db⟩
  else
    match ValidateAndUseWithdrawSession db k1 withdrawID with
    | .error e => ⟨.errSession e, false, db⟩
    | .ok (payID, db1) =>
      match findVoucherByWithdrawID db1 withdrawID with
      | none => ⟨.errVoucherNotFound, false, db1⟩
      | some v =>
        if !(v.IsActive absExpirySecs now) then ⟨.errNotActive, false, db1⟩
        else if v.TotalPaidMsats ≤ 0 then ⟨.errNoBalance, false, db1⟩
        else
          match outcome with
          | .ambiguousTimeout =>
            ⟨.errPaymentTimedOut, true,
              if deactivateFails then db1 else DeactivateVoucher db1 payID⟩
          | .definitiveFailure => ⟨.errPaymentFailed, true, db1⟩
          | .success =>
            ⟨.ok, true,
              if deactivateFails then db1 else DeactivateVoucher db1 payID⟩

/-- Store and gateway actions of the refund job, in execution order. -/
inductive RefundEvent where
  | deactivated (payID : String)
  | refundCall (address : String) (amountMsats : Int)
  | reactivated (payID : String) (amountMsats : Int)
deriving Repr, DecidableEq

/-- The per-voucher body of `runRefundJob` (`handlers.go`): deactivate the
voucher first (returning early if that write fails); then attempt the
refund; on an ambiguous outcome keep it deactivated; on a definitive
failure reactivate it with the original balance (unless that write fails,
which is only logged).  Returns the new store and the ordered trace of the
actions performed. -/
def runRefundJobVoucher (db : DBState) (v : Voucher) (deactivateFails : Bool)
    (outcome : PayOutcome) (reactivateFails : Bool) :
    DBState × List RefundEvent :=
  if deactivateFails then (db, [])
  else
    let db1 := DeactivateVoucher db v.PayID
    match outcome with
    | .success =>
      (db1, [.deactivated v.PayID, .refundCall v.LightningAddress v.TotalPaidMsats])
    | .ambiguousTimeout =>
      (db1, [.deactivated v.PayID, .refundCall v.LightningAddress v.TotalPaidMsats])
    | .definitiveFailure =>
      if reactivateFails then
        (db1, [.deactivated v.PayID, .refundCall v.LightningAddress v.TotalPaidMsats])
      else
        (ReactivateVoucher db1 v.PayID v.TotalPaidMsats,
         [.deactivated v.PayID, .refundCall v.LightningAddress v.TotalPaidMsats,
          .reactivated v.PayID v.TotalPaidMsats])

/-- The concrete voucher used in the C10 counterexample: funded at time 0
with a 10-second relative expiry, examined exactly at time 10. -/
def boundaryVoucher : Voucher :=
  { PayID := "p1", WithdrawID := "w1", LightningAddress := "alice@example.com",
    TotalPaidMsats := 1000, LastFundedAt := some 0, ExpirySeconds := 10,
    Active := true, CreatedAt := 0 }

/-- The concrete voucher used in witnesses below. -/
def witVoucher : Voucher :=
  { PayID := "p2", WithdrawID := "w2", LightningAddress := "bob@example.com",
    TotalPaidMsats := 500, LastFundedAt := some 0, ExpirySeconds := 10,
    Active := true, CreatedAt := 0 }

/-- Width-`w` big-endian bit view of a natural number (proof tool for the
bech32 codec: the most significant of the `w` bits first). -/
def natBits : Nat → Nat → List Bool
  | 0, _ => []
  | w + 1, n => n.testBit w :: natBits w n

/-- The concatenated bit stream of a list of width-`w` values. -/
def bitStream (w : Nat) (xs : List Nat) : List Bool :=
  (xs.map (natBits w)).flatten

/-- `bech32Charset` from `lnurl.go`, as ASCII byte values
(`"qpzry9x8gf2tvdw0s3jn54khce6mua7l"`). -/
def bech32Charset : List Nat :=
  [113, 112, 122, 114, 121, 57, 120, 56, 103, 102, 50, 116, 118, 100, 119, 48,
   115, 51, 106, 110, 53, 52, 107, 104, 99, 101, 54, 109, 117, 97, 55, 108]

/-- `bech32Generator` from `lnurl.go`. -/
def bech32Generator : List Nat :=
  [0x3b6a57b2, 0x26508e6d, 0x1ea119fa, 0x3d4233dd, 0x2a1462b3]

/-- One iteration of the `bech32Polymod` loop (`lnurl.go`): shift the
checksum register, xor in the value, and xor in each generator whose top bit
was set.  All values stay below `2^30`, so `Nat` is faithful to Go's
`uint32`. -/
def bech32PolymodStep (chk v : Nat) : Nat :=
  (List.range 5).foldl
    (fun c i => if ((chk >>> 25) >>> i) &&& 1 = 1 then c ^^^ bech32Generator.getD i 0
                else c)
    (((chk &&& 0x1ffffff) <<< 5) ^^^ v)

/-- `bech32Polymod` (`lnurl.go`): fold the step over the values, starting
from 1. -/
def bech32Polymod (values : List Nat) : Nat :=
  values.foldl bech32PolymodStep 1

/-- `bech32HRPExpand` (`lnurl.go`): high 3 bits of each prefix character,
a zero separator, then the low 5 bits of each character. -/
def bech32HRPExpand (hrp : List Nat) : List Nat :=
  hrp.map (fun c => c >>> 5) ++ [0] ++ hrp.map (fun c => c &&& 31)

/-- `bech32CreateChecksum` (`lnurl.go`): polymod over expanded prefix, data
and six zeros, xor 1, then the six 5-bit chunks of the remainder. -/
def bech32CreateChecksum (hrp : List Nat) (data : List Nat) : List Nat :=
  let values := bech32HRPExpand hrp ++ data ++ [0, 0, 0, 0, 0, 0]
  let pm := bech32Polymod values ^^^ 1
  (List.range 6).map (fun i => (pm >>> (5 * (5 - i))) &&& 31)

/-- The number a big-endian list of 5-bit chunks denotes (proof tool for
the checksum argument). -/
def bech32ChunksValue : List Nat → Nat
  | [] => 0
  | c :: rest => (c <<< (5 * rest.length)) ^^^ bech32ChunksValue rest

/-- The inner `for bits >= toBits` emission loop of `convertBits`
(`lnurl.go`): repeatedly emit the top `toBits` bits of the accumulator.
`fuel` only bounds the iteration count to make the recursion structural;
each round removes `toBits ≥ 1` bits, so calling it with `fuel = bits`
runs it to completion exactly like the Go loop. -/
def convertBitsEmit (toBits maxv : Nat) : Nat → Nat → Nat → List Nat × Nat
  | 0, _, bits => ([], bits)
  | fuel + 1, acc, bits =>
    if toBits ≤ bits then
      let rest := convertBitsEmit toBits maxv fuel acc (bits - toBits)
      (((acc >>> (bits - toBits)) &&& maxv) :: rest.1, rest.2)
    else ([], bits)

/-- The main accumulation loop of `convertBits` (`lnurl.go`): shift each
input value into the accumulator and emit full output groups.  Returns the
emitted values and the final `(acc, bits)` pair. -/
def convertBitsLoop (fromBits toBits maxv : Nat) :
    List Nat → Nat → Nat → List Nat × Nat × Nat
  | [], acc, bits => ([], acc, bits)
  | value :: rest, acc, bits =>
    let acc' := (acc <<< fromBits) ||| value
    let em := convertBitsEmit toBits maxv (bits + fromBits) acc' (bits + fromBits)
    let r := convertBitsLoop fromBits toBits maxv rest acc' em.2
    (em.1 ++ r.1, r.2)

/-- `convertBits` (`lnurl.go`): regroup a value stream between bit widths;
with `pad` set, left-over bits are flushed zero-padded, otherwise left-over
input bits must be fewer than `fromBits` and all zero. -/
def convertBits (data : List Nat) (fromBits toBits : Nat) (pad : Bool) :
    Except String (List Nat) :=
  let maxv := (1 <<< toBits) - 1
  let r := convertBitsLoop fromBits toBits maxv data 0 0
  if pad then
    if 0 < r.2.2 then .ok (r.1 ++ [(r.2.1 <<< (toBits - r.2.2)) &&& maxv])
    else .ok r.1
  else if fromBits ≤ r.2.2 ∨ ((r.2.1 <<< (toBits - r.2.2)) &&& maxv) ≠ 0 then
    .error "invalid padding in bit conversion"
  else .ok r.1

/-- ASCII uppercase of one byte (`strings.ToUpper` acts bytewise here:
every byte it ever sees is ASCII). -/
def toUpperByte (c : Nat) : Nat := if 97 ≤ c ∧ c ≤ 122 then c - 32 else c

/-- ASCII lowercase of one byte. -/
def toLowerByte (c : Nat) : Nat := if 65 ≤ c ∧ c ≤ 90 then c + 32 else c

/-- The bytes of `"lnurl"`. -/
def lnurlHRP : List Nat := [108, 110, 117, 114, 108]

/-- The charset output loop of `EncodeLNURL` (`lnurl.go`): map each 5-bit
value through `bech32Charset`, failing on any value outside it (the Go
`int(c) >= len(bech32Charset)` check). -/
def mapToCharset : List Nat → Except String (List Nat)
  | [] => .ok []
  | c :: rest =>
    if bech32Charset.length ≤ c then .error "invalid data value"
    else
      match mapToCharset rest with
      | .error e => .error e
      | .ok cs => .ok (bech32Charset.getD c 0 :: cs)

/-- `EncodeLNURL` (`lnurl.go`): 8→5-bit regroup with padding, bech32
checksum over the `"lnurl"` HRP, charset mapping, the `"lnurl1"` prefix
(byte 49 is `'1'`), and a final uppercase.  Strings are byte lists. -/
def EncodeLNURL (rawURL : List Nat) : Except String (List Nat) :=
  match convertBits rawURL 8 5 true with
  | .error e => .error e
  | .ok converted =>
    match mapToCharset (converted ++ bech32CreateChecksum lnurlHRP converted) with
    | .error e => .error e
    | .ok chars => .ok ((lnurlHRP ++ [49] ++ chars).map toUpperByte)

/-- Modelled from the spec: split a byte string at the LAST occurrence of
`'1'` (byte 49) into prefix and data.  (`DecodeLNURL` is called from
`handlers.go` but its definition is not under `src/`; spec §4.1 describes
it.) -/
def splitAtLastOne (l : List Nat) : Option (List Nat × List Nat) :=
  match l.reverse.dropWhile (fun c => c ≠ 49) with
  | [] => none
  | _ :: hrpRev =>
    some (hrpRev.reverse, (l.reverse.takeWhile (fun c => c ≠ 49)).reverse)

/-- Modelled from the spec: reverse-map charset bytes to their 5-bit
values, failing on any byte outside the charset. -/
def mapFromCharset : List Nat → Option (List Nat)
  | [] => some []
  | c :: rest =>
    match bech32Charset.findIdx? (fun x => x == c), mapFromCharset rest with
    | some v, some vs => some (v :: vs)
    | _, _ => none

/-- Modelled from the spec: `DecodeLNURL` — case-normalize, split at the
last `'1'`, reverse-map the charset, verify the bech32 checksum (polymod of
expanded prefix plus data must equal 1), drop the 6 checksum symbols and
regroup 5→8 bits without padding (trailing bits must be zero and fewer than
5). -/
def DecodeLNURL (s : List Nat) : Except String (List Nat) :=
  match splitAtLastOne (s.map toLowerByte) with
  | none => .error "separator not found"
  | some (hrp, dataPart) =>
    if dataPart.length < 6 then .error "data too short"
    else
      match mapFromCharset dataPart with
      | none => .error "invalid character"
      | some values =>
        if bech32Polymod (bech32HRPExpand hrp ++ values) ≠ 1 then
          .error "invalid checksum"
        else convertBits (values.take (values.length - 6)) 5 8 false

/-- Concrete store used by the C1 witness: one active funded voucher and one
fresh session for it. -/
def witDB0 : DBState :=
  { vouchers := [witVoucher],
    sessions := [{ k1 := "k0001", withdrawID := "w2", used := false }] }

/-- `witDB0` after its session has been consumed. -/
def witDB1 : DBState :=
  { vouchers := [witVoucher],
    sessions := [{ k1 := "k0001", withdrawID := "w2", used := true }] }

/-- Concrete store used by the C2/C6 witnesses: one active funded voucher
and one fresh session `k0002`. -/
def cbDB0 : DBState :=
  { vouchers := [witVoucher],
    sessions := [{ k1 := "k0002", withdrawID := "w2", used := false }] }

/-- `cbDB0` after its session has been consumed. -/
def cbDB1 : DBState :=
  { vouchers := [witVoucher],
    sessions := [{ k1 := "k0002", withdrawID := "w2", used := true }] }

/-- Store with no rows (C9 counterexample: unknown `k1`). -/
def emptyDB : DBState := { vouchers := [], sessions := [] }

/-- Store with an already-used session (C9 counterexample). -/
def usedSessionDB : DBState :=
  { vouchers := [witVoucher],
    sessions := [{ k1 := "kused", withdrawID := "w2", used := true }] }

/-- Concrete store used by the C3 witness. -/
def refundDB : DBState := { vouchers := [witVoucher], sessions := [] }

/-! ## Theorems -/

/-- `find?` over a key-preserving row update commutes with the update. -/
theorem find?_map_of_pred {α : Type} (f : α → α) (p : α → Bool)
    (hf : ∀ x, p (f x) = p x) (l : List α) :
    (l.map f).find? p = (l.find? p).map f := by
  have hpf : p ∘ f = p := funext hf
  rw [List.find?_map, hpf]

/-- What a successful `ValidateAndUseWithdrawSession` tells us: the session
existed unused for this `withdraw_id`, the returned `pay_id` is the owning
voucher's, the vouchers table is untouched, and the session is marked used. -/
theorem validateAndUse_ok_sessions (db : DBState) (k1 withdrawID payID : String)
    (db1 : DBState)
    (h : ValidateAndUseWithdrawSession db k1 withdrawID = .ok (payID, db1)) :
    db1.sessions = db.sessions.map (fun t =>
      if t.k1 == k1 then { t with used := true } else t)
    ∧ db1.vouchers = db.vouchers
    ∧ (∃ s, findSession db k1 = some s ∧ s.withdrawID = withdrawID ∧ s.used = false)
    ∧ (∃ v, findVoucherByWithdrawID db withdrawID = some v ∧ v.PayID = payID) := by
  unfold ValidateAndUseWithdrawSession at h
  split at h
  · exact absurd h (by simp)
  · rename_i s hs
    rcases hw : findVoucherByWithdrawID db withdrawID with _ | v <;> rw [hw] at h
    · split_ifs at h with h1 h2
    · split_ifs at h with h1 h2
      injection h with h'
      injection h' with hpid hdb
      subst hpid
      subst hdb
      exact ⟨rfl, rfl, ⟨s, hs, by simpa using h1, by simpa using h2⟩, ⟨v, rfl, rfl⟩⟩

/-- After a successful session consumption the session is recorded used. -/
theorem findSession_after_use (db : DBState) (k1 withdrawID payID : String)
    (db1 : DBState)
    (h : ValidateAndUseWithdrawSession db k1 withdrawID = .ok (payID, db1)) :
    ∃ s, findSession db1 k1 = some s ∧ s.used = true := by
  obtain ⟨hsess, -, ⟨s, hs, -, -⟩, -⟩ := validateAndUse_ok_sessions db k1 withdrawID payID db1 h
  have hs' : List.find? (fun (t : WithdrawSession) => t.k1 == k1) db.sessions = some s := hs
  have hk : (s.k1 == k1) = true :=
    List.find?_some (p := fun (t : WithdrawSession) => t.k1 == k1) hs'
  refine ⟨{ s with used := true }, ?_, rfl⟩
  show List.find? (fun (t : WithdrawSession) => t.k1 == k1) db1.sessions
    = some { s with used := true }
  rw [hsess,
    find?_map_of_pred (fun t => if t.k1 == k1 then { t with used := true } else t)
      (fun t => t.k1 == k1)
      (fun t => by by_cases ht : (t.k1 == k1) = true <;> simp [ht]) db.sessions,
    hs', Option.map_some', if_pos hk]

/-- No store operation ever clears a session's `used` flag: once a `k1` is
recorded used, it stays used. -/
theorem dbStep_sessionUsed_mono {db db' : DBState} (hstep : DBStep db db')
    (k1 : String) (s : WithdrawSession)
    (hs : findSession db k1 = some s) (hu : s.used = true) :
    ∃ s', findSession db' k1 = some s' ∧ s'.used = true := by
  have hs' : List.find? (fun (t : WithdrawSession) => t.k1 == k1) db.sessions = some s := hs
  cases hstep with
  | insertSession k1' wid hfresh =>
    refine ⟨s, ?_, hu⟩
    have hne : ¬ ((k1' == k1) = true) := by
      intro hcontra
      have hk : k1' = k1 := by simpa using hcontra
      rw [hk] at hfresh
      rw [hs] at hfresh
      cases hfresh
    show List.find? (fun (t : WithdrawSession) => t.k1 == k1)
        ({ k1 := k1', withdrawID := wid, used := false } :: db.sessions) = some s
    rw [List.find?_cons_of_neg db.sessions hne]
    exact hs'
  | useSession k1' wid pid db1 hok =>
    obtain ⟨hsess, -, -, -⟩ := validateAndUse_ok_sessions db k1' wid pid db' hok
    refine ⟨if (s.k1 == k1') = true then { s with used := true } else s, ?_, ?_⟩
    · show List.find? (fun (t : WithdrawSession) => t.k1 == k1) db'.sessions = _
      rw [hsess,
        find?_map_of_pred (fun t => if t.k1 == k1' then { t with used := true } else t)
          (fun t => t.k1 == k1)
          (fun t => by by_cases ht : (t.k1 == k1') = true <;> simp [ht]) db.sessions,
        hs', Option.map_some']
    · by_cases hk : (s.k1 == k1') = true <;> simp [hk, hu]
  | credit pid cm n => exact ⟨s, hs, hu⟩
  | deactivate pid => exact ⟨s, hs, hu⟩
  | reactivate pid bal => exact ⟨s, hs, hu⟩
  | insertVouchers vs => exact ⟨s, hs, hu⟩

/-- `dbStep_sessionUsed_mono` lifted to reachability. -/
theorem dbReach_sessionUsed_mono {db db' : DBState} (hreach : DBReach db db')
    (k1 : String) (hs : ∃ s, findSession db k1 = some s ∧ s.used = true) :
    ∃ s', findSession db' k1 = some s' ∧ s'.used = true := by
  induction hreach with
  | refl => exact hs
  | tail hab hbc ih =>
    obtain ⟨s, h1, h2⟩ := ih
    exact dbStep_sessionUsed_mono hbc k1 s h1 h2

/-- C7: `Voucher.IsActive` equals the conjunction `active ∧ now ≤ created_at
+ absolute_expiry ∧ (last_funded_at = none ∨ now ≤ last_funded_at +
expiry_seconds)`; in particular it is false strictly after
`created_at + absolute_expiry`, and false strictly after
`last_funded_at + expiry_seconds` when `last_funded_at` is set, whatever the
`Active` flag's value. -/
theorem IsActive_characterization (v : Voucher) (absExpirySecs now : Int) :
    (v.IsActive absExpirySecs now = true ↔
      (v.Active = true ∧ now ≤ v.CreatedAt + absExpirySecs ∧
        (v.LastFundedAt = none ∨
          ∃ lf, v.LastFundedAt = some lf ∧ now ≤ lf + v.ExpirySeconds)))
    ∧ (v.CreatedAt + absExpirySecs < now → v.IsActive absExpirySecs now = false)
    ∧ (∀ lf, v.LastFundedAt = some lf → lf + v.ExpirySeconds < now →
        v.IsActive absExpirySecs now = false) := by
  unfold Voucher.IsActive
  rcases hlf : v.LastFundedAt with _ | lf <;> rcases ha : v.Active <;>
    split_ifs <;> simp_all

/-- C7 witness: the characterization applied to a concrete voucher at a
concrete instant strictly past its relative funding expiry. -/
theorem IsActive_characterization_witness :
    witVoucher.IsActive 1000 12 = false :=
  (IsActive_characterization witVoucher 1000 12).2.2 0 rfl (by decide)

/-- C10 counterexample: at the exact boundary instant
`now = last_funded_at + expiry_seconds` the refund-selection predicate of
`GetExpiredVouchersForRefund` (which uses `>=`) selects the voucher while
`Voucher.IsActive` (which expires only strictly after the boundary) is still
true, so selection does not imply not-is-active. -/
theorem refundSelect_boundary_counterexample :
    refundSelectPred 1000 10 boundaryVoucher = true ∧
    boundaryVoucher.IsActive 1000 10 = true := by decide

/-- C10 (amended): every voucher selected by the refund query is either
already not is-active, or is exactly at one of its expiry boundaries
(`now = last_funded_at + expiry_seconds` or `now = created_at +
absolute_expiry`); strictly after a boundary, selection implies
`IsActive = false`. -/
theorem refundSelect_implies_expired (absExpirySecs now : Int) (v : Voucher)
    (h : refundSelectPred absExpirySecs now v = true) :
    v.IsActive absExpirySecs now = false ∨
      (∃ lf, v.LastFundedAt = some lf ∧ now = lf + v.ExpirySeconds) ∨
      now = v.CreatedAt + absExpirySecs := by
  unfold refundSelectPred at h
  unfold Voucher.IsActive
  rcases hlf : v.LastFundedAt with _ | lf <;> rcases ha : v.Active <;>
    split_ifs <;> simp_all <;> omega

/-- C10 witness: the amended claim applied one second past the relative
expiry boundary, where the selected voucher is indeed not is-active. -/
theorem refundSelect_implies_expired_witness :
    refundSelectPred 1000 11 witVoucher = true ∧
    (witVoucher.IsActive 1000 11 = false ∨
      (∃ lf, witVoucher.LastFundedAt = some lf ∧ (11 : Int) = lf + witVoucher.ExpirySeconds) ∨
      (11 : Int) = witVoucher.CreatedAt + 1000) :=
  ⟨by decide, refundSelect_implies_expired 1000 11 witVoucher (by decide)⟩

/-- C4: at the spec's own worked example (amount 50,000 msats, minimum fee
2,000 msats, fee percent 0.004) the code's fee computation — which ADDS the
minimum fee to the percentage fee — retains 2,200 msats and credits 47,800,
while the fee rule the spec states, `max(2000, floor(amount*0.004))`, gives
fee 2,000 and credited 48,000.  The code diverges from the claim here. -/
theorem fundingFee_divergence_at_50000 :
    payCallbackFee 2000 (1/250) 50000 = .ok (2200, 47800) ∧
    specFundingFeeMsats 2000 (1/250) 50000 = 2000 ∧
    fundingFeeMsats 2000 (1/250) 50000 ≠ specFundingFeeMsats 2000 (1/250) 50000 := by
  refine ⟨?_, ?_, ?_⟩ <;>
    norm_num [payCallbackFee, fundingFeeMsats, specFundingFeeMsats]

/-- C5: `RefundToLightningAddress` (i) fails as dust, without any
gateway-facing call, whenever the amount is below the resolved
`minSendable`; (ii) otherwise every invoice it requests is for the amount
capped at `maxSendable` and rounded down to a whole-satoshi (multiple of
1000 msats) boundary — in particular, when the amount exceeds `maxSendable`
the requested amount is the rounded-down `maxSendable`. -/
theorem RefundToLightningAddress_clamps (params : LNURLPayParams)
    (invoiceResult : Except String String) (payResult : Except String Unit)
    (amountMsats : Int) :
    (amountMsats < params.MinSendable →
      RefundToLightningAddress (.ok params) invoiceResult payResult amountMsats =
        (.error "refund amount is below target minSendable (dust)", []))
    ∧ (params.MinSendable ≤ amountMsats →
        ∀ cb amt, GatewayEvent.invoiceRequest cb amt ∈
            (RefundToLightningAddress (.ok params) invoiceResult payResult amountMsats).2 →
          amt = ((if amountMsats > params.MaxSendable then params.MaxSendable
                  else amountMsats).tdiv 1000) * 1000
          ∧ (1000 : Int) ∣ amt
          ∧ (params.MaxSendable < amountMsats →
              amt = (params.MaxSendable.tdiv 1000) * 1000)) := by
  constructor
  · intro hdust
    unfold RefundToLightningAddress
    simp [hdust]
  · intro hmin cb amt hmem
    have hnotdust : ¬ amountMsats < params.MinSendable := not_lt.mpr hmin
    unfold RefundToLightningAddress at hmem
    simp only [hnotdust, if_false] at hmem
    rcases invoiceResult with e | invoice <;>
      simp only [List.mem_cons, List.mem_singleton, List.not_mem_nil, or_false] at hmem
    · rcases hmem with hmem
      cases hmem
      refine ⟨rfl, ⟨_, mul_comm _ _⟩, fun hmax => by simp [hmax]⟩
    · rcases hmem with hmem | hmem
      · cases hmem
        refine ⟨rfl, ⟨_, mul_comm _ _⟩, fun hmax => by simp [hmax]⟩
      · cases hmem

/-- C5 witness: the spec's example — `amountMsats = 500` against a resolved
`minSendable = 100000` — fails as dust with no gateway interaction. -/
theorem RefundToLightningAddress_clamps_witness :
    (500 : Int) < 100000 ∧
    RefundToLightningAddress
        (.ok { Callback := "https://w.example/cb", MinSendable := 100000,
               MaxSendable := 500000 })
        (.ok "lnbc1invoice") (.ok ()) 500 =
      (.error "refund amount is below target minSendable (dust)", []) :=
  ⟨by decide,
   (RefundToLightningAddress_clamps
      { Callback := "https://w.example/cb", MinSendable := 100000,
        MaxSendable := 500000 }
      (.ok "lnbc1invoice") (.ok ()) 500).1 (by decide)⟩

/-- Deactivation seen through a `withdraw_id` lookup: the found row is the
updated one. -/
theorem findVoucherByWithdrawID_deactivate (db : DBState) (payID withdrawID : String) :
    findVoucherByWithdrawID (DeactivateVoucher db payID) withdrawID
      = (findVoucherByWithdrawID db withdrawID).map (fun v =>
          if v.PayID == payID then { v with TotalPaidMsats := 0, Active := false }
          else v) := by
  unfold findVoucherByWithdrawID DeactivateVoucher
  exact find?_map_of_pred _ _
    (fun v => by by_cases hv : (v.PayID == payID) = true <;> simp [hv]) db.vouchers

/-- Deactivation seen through a `pay_id` lookup. -/
theorem findVoucherByPayID_deactivate (db : DBState) (payID : String) :
    findVoucherByPayID (DeactivateVoucher db payID) payID
      = (findVoucherByPayID db payID).map (fun v =>
          if v.PayID == payID then { v with TotalPaidMsats := 0, Active := false }
          else v) := by
  unfold findVoucherByPayID DeactivateVoucher
  exact find?_map_of_pred _ _
    (fun v => by by_cases hv : (v.PayID == payID) = true <;> simp [hv]) db.vouchers

/-- Reactivation seen through a `pay_id` lookup. -/
theorem findVoucherByPayID_reactivate (db : DBState) (payID : String) (bal : Int) :
    findVoucherByPayID (ReactivateVoucher db payID bal) payID
      = (findVoucherByPayID db payID).map (fun v =>
          if v.PayID == payID then { v with TotalPaidMsats := bal, Active := true }
          else v) := by
  unfold findVoucherByPayID ReactivateVoucher
  exact find?_map_of_pred _ _
    (fun v => by by_cases hv : (v.PayID == payID) = true <;> simp [hv]) db.vouchers

/-- C1: a withdrawal session's `k1` is consumed at most once.  After one
successful `ValidateAndUseWithdrawSession` for a `k1`, in every store state
later reachable by any sequence of store operations, a withdrawal callback
presenting that same `k1` (for any `withdraw_id`) returns a session error,
leaves the store unchanged, and never invokes the gateway `PayInvoice`
(`payInvoked = false`), so the same `k1` never triggers a second payout. -/
theorem k1_consumed_at_most_once (db db1 db2 : DBState)
    (k1 withdrawID payID : String)
    (hsucc : ValidateAndUseWithdrawSession db k1 withdrawID = .ok (payID, db1))
    (hreach : DBReach db1 db2)
    (absExpirySecs now : Int) (withdrawID' pr : String)
    (outcome : PayOutcome) (deactivateFails : Bool)
    (hk1 : k1 ≠ "") (hpr : pr ≠ "") :
    ∃ e : SessionError,
      handleLNURLWithdrawCallback db2 absExpirySecs now withdrawID' k1 pr
        outcome deactivateFails = ⟨.errSession e, false, db2⟩ := by
  obtain ⟨s2, hs2, hu2⟩ := dbReach_sessionUsed_mono hreach k1
    (findSession_after_use db k1 withdrawID payID db1 hsucc)
  have herr : ∀ e, ValidateAndUseWithdrawSession db2 k1 withdrawID' = .error e →
      handleLNURLWithdrawCallback db2 absExpirySecs now withdrawID' k1 pr
        outcome deactivateFails = ⟨.errSession e, false, db2⟩ := by
    intro e he
    simp [handleLNURLWithdrawCallback, hk1, hpr, he]
  by_cases hw : s2.withdrawID = withdrawID'
  · refine ⟨.k1AlreadyUsed, herr _ ?_⟩
    unfold ValidateAndUseWithdrawSession
    rw [hs2]
    simp [hw, hu2]
  · refine ⟨.k1Mismatch, herr _ ?_⟩
    unfold ValidateAndUseWithdrawSession
    rw [hs2]
    simp [hw]

/-- C1 witness: a concrete store whose only session is consumed once;
replaying the same `k1` immediately afterwards yields a session error with
no gateway call. -/
theorem k1_consumed_at_most_once_witness :
    ∃ e : SessionError,
      handleLNURLWithdrawCallback witDB1 1000 5 "w2" "k0001" "lnbc1" .success false
        = ⟨.errSession e, false, witDB1⟩ :=
  k1_consumed_at_most_once witDB0 witDB1 witDB1 "k0001" "w2" "p2" rfl
    Relation.ReflTransGen.refl 1000 5 "w2" "lnbc1" .success false
    (by decide) (by decide)

/-- C2: once the withdraw callback reaches the gateway payment, a definitive
`PayInvoice` failure leaves the voucher table exactly as it was (the voucher
stays active with its balance, so the holder can retry), while an ambiguous
outcome (timeout/cancellation) deactivates the voucher — its balance is
zeroed and its active flag cleared — so no second payout is possible. -/
theorem withdrawCallback_outcome_policy (db db1 : DBState)
    (absExpirySecs now : Int) (withdrawID k1 pr payID : String) (v : Voucher)
    (hk1 : k1 ≠ "") (hpr : pr ≠ "")
    (hsess : ValidateAndUseWithdrawSession db k1 withdrawID = .ok (payID, db1))
    (hv : findVoucherByWithdrawID db1 withdrawID = some v)
    (hact : v.IsActive absExpirySecs now = true)
    (hbal : 0 < v.TotalPaidMsats) :
    (handleLNURLWithdrawCallback db absExpirySecs now withdrawID k1 pr
        .definitiveFailure false = ⟨.errPaymentFailed, true, db1⟩
      ∧ db1.vouchers = db.vouchers)
    ∧ (handleLNURLWithdrawCallback db absExpirySecs now withdrawID k1 pr
        .ambiguousTimeout false
        = ⟨.errPaymentTimedOut, true, DeactivateVoucher db1 payID⟩
      ∧ ∃ v', findVoucherByWithdrawID (DeactivateVoucher db1 payID) withdrawID
          = some v' ∧ v'.TotalPaidMsats = 0 ∧ v'.Active = false) := by
  obtain ⟨hsessions, hvouchers, -, ⟨v0, hv0, hpid⟩⟩ :=
    validateAndUse_ok_sessions db k1 withdrawID payID db1 hsess
  have hlook : findVoucherByWithdrawID db1 withdrawID
      = findVoucherByWithdrawID db withdrawID := by
    unfold findVoucherByWithdrawID
    rw [hvouchers]
  have hv0' : some v0 = some v := by rw [← hv0, ← hlook, hv]
  have hvv : v0 = v := by injection hv0'
  have hpidv : (v.PayID == payID) = true := by
    rw [← hvv]
    simp [hpid]
  have hb : ¬ (v.TotalPaidMsats ≤ 0) := not_le.mpr hbal
  refine ⟨⟨?_, hvouchers⟩, ?_, ?_⟩
  · simp [handleLNURLWithdrawCallback, hk1, hpr, hsess, hv, hact, hb]
  · simp [handleLNURLWithdrawCallback, hk1, hpr, hsess, hv, hact, hb]
  · rw [findVoucherByWithdrawID_deactivate, hv, Option.map_some']
    exact ⟨_, rfl, by simp [hpidv], by simp [hpidv]⟩

/-- C2 witness: a concrete run in which the ambiguous outcome deactivates
the voucher. -/
theorem withdrawCallback_outcome_policy_witness :
    handleLNURLWithdrawCallback cbDB0 1000 5 "w2" "k0002" "lnbc1"
        .ambiguousTimeout false
      = ⟨.errPaymentTimedOut, true, DeactivateVoucher cbDB1 "p2"⟩ :=
  ((withdrawCallback_outcome_policy cbDB0 cbDB1 1000 5 "w2" "k0002" "lnbc1" "p2"
      witVoucher (by decide) (by decide) rfl rfl (by decide)
      (by decide)).2).1

/-- C6: once the withdraw callback reaches the gateway payment and it
succeeds, the response is `{"status":"OK"}` whether or not the deactivation
write succeeds; when the deactivation transaction succeeds the voucher ends
with zero balance and a cleared active flag, and when it fails the store is
left as it was — but the caller is still told OK. -/
theorem withdrawCallback_success_policy (db db1 : DBState)
    (absExpirySecs now : Int) (withdrawID k1 pr payID : String) (v : Voucher)
    (hk1 : k1 ≠ "") (hpr : pr ≠ "")
    (hsess : ValidateAndUseWithdrawSession db k1 withdrawID = .ok (payID, db1))
    (hv : findVoucherByWithdrawID db1 withdrawID = some v)
    (hact : v.IsActive absExpirySecs now = true)
    (hbal : 0 < v.TotalPaidMsats) :
    (∀ deactivateFails : Bool,
      (handleLNURLWithdrawCallback db absExpirySecs now withdrawID k1 pr
          .success deactivateFails).response = .ok
      ∧ (handleLNURLWithdrawCallback db absExpirySecs now withdrawID k1 pr
          .success deactivateFails).payInvoked = true)
    ∧ handleLNURLWithdrawCallback db absExpirySecs now withdrawID k1 pr
        .success false = ⟨.ok, true, DeactivateVoucher db1 payID⟩
    ∧ (∃ v', findVoucherByWithdrawID (DeactivateVoucher db1 payID) withdrawID
        = some v' ∧ v'.TotalPaidMsats = 0 ∧ v'.Active = false)
    ∧ handleLNURLWithdrawCallback db absExpirySecs now withdrawID k1 pr
        .success true = ⟨.ok, true, db1⟩ := by
  obtain ⟨hsessions, hvouchers, -, ⟨v0, hv0, hpid⟩⟩ :=
    validateAndUse_ok_sessions db k1 withdrawID payID db1 hsess
  have hlook : findVoucherByWithdrawID db1 withdrawID
      = findVoucherByWithdrawID db withdrawID := by
    unfold findVoucherByWithdrawID
    rw [hvouchers]
  have hv0' : some v0 = some v := by rw [← hv0, ← hlook, hv]
  have hvv : v0 = v := by injection hv0'
  have hpidv : (v.PayID == payID) = true := by
    rw [← hvv]
    simp [hpid]
  have hb : ¬ (v.TotalPaidMsats ≤ 0) := not_le.mpr hbal
  refine ⟨?_, ?_, ?_, ?_⟩
  · intro deactivateFails
    constructor <;>
      simp [handleLNURLWithdrawCallback, hk1, hpr, hsess, hv, hact, hb]
  · simp [handleLNURLWithdrawCallback, hk1, hpr, hsess, hv, hact, hb]
  · rw [findVoucherByWithdrawID_deactivate, hv, Option.map_some']
    exact ⟨_, rfl, by simp [hpidv], by simp [hpidv]⟩
  · simp [handleLNURLWithdrawCallback, hk1, hpr, hsess, hv, hact, hb]

/-- C6 witness: a concrete successful withdrawal whose deactivation write
fails; the store is unchanged and the response is still OK. -/
theorem withdrawCallback_success_policy_witness :
    handleLNURLWithdrawCallback cbDB0 1000 5 "w2" "k0002" "lnbc1" .success true
      = ⟨.ok, true, cbDB1⟩ :=
  (withdrawCallback_success_policy cbDB0 cbDB1 1000 5 "w2" "k0002" "lnbc1" "p2"
      witVoucher (by decide) (by decide) rfl rfl (by decide)
      (by decide)).2.2.2

/-- C3: the refund job deactivates a voucher strictly before attempting the
refund payment (a refund call only ever happens after the deactivation
succeeded, and the trace always begins with the deactivation); a definitive
payment failure then reactivates it with its original balance for retry on
the next run, while an ambiguous/timeout outcome leaves it deactivated with
zero balance. -/
theorem refundJob_deactivate_first (db : DBState) (v : Voucher)
    (deactivateFails reactivateFails : Bool) (outcome : PayOutcome)
    (hv : findVoucherByPayID db v.PayID = some v) :
    (∀ a m, RefundEvent.refundCall a m ∈
        (runRefundJobVoucher db v deactivateFails outcome reactivateFails).2 →
      deactivateFails = false ∧
      (runRefundJobVoucher db v deactivateFails outcome reactivateFails).2.head?
        = some (.deactivated v.PayID))
    ∧ (deactivateFails = false → outcome = .definitiveFailure →
        reactivateFails = false →
        ∃ v', findVoucherByPayID
            (runRefundJobVoucher db v deactivateFails outcome reactivateFails).1
            v.PayID
          = some v' ∧ v'.TotalPaidMsats = v.TotalPaidMsats ∧ v'.Active = true)
    ∧ (deactivateFails = false → outcome = .ambiguousTimeout →
        ∃ v', findVoucherByPayID
            (runRefundJobVoucher db v deactivateFails outcome reactivateFails).1
            v.PayID
          = some v' ∧ v'.TotalPaidMsats = 0 ∧ v'.Active = false) := by
  have hself : (v.PayID == v.PayID) = true := by simp
  refine ⟨?_, ?_, ?_⟩
  · intro a m hm
    cases deactivateFails
    · cases outcome <;> cases reactivateFails <;>
        simp [runRefundJobVoucher] at hm ⊢
    · simp [runRefundJobVoucher] at hm
  · intro hd ho hr
    subst hd; subst ho; subst hr
    rw [show (runRefundJobVoucher db v false .definitiveFailure false).1
        = ReactivateVoucher (DeactivateVoucher db v.PayID) v.PayID v.TotalPaidMsats
      from rfl]
    rw [findVoucherByPayID_reactivate, findVoucherByPayID_deactivate, hv,
      Option.map_some', Option.map_some']
    exact ⟨_, rfl, by simp [hself], by simp [hself]⟩
  · intro hd ho
    subst hd; subst ho
    rw [show (runRefundJobVoucher db v false .ambiguousTimeout reactivateFails).1
        = DeactivateVoucher db v.PayID from rfl]
    rw [findVoucherByPayID_deactivate, hv, Option.map_some']
    exact ⟨_, rfl, by simp [hself], by simp [hself]⟩

/-- C3 witness: a definitive refund failure on a concrete voucher restores
its original balance and active flag for the next run. -/
theorem refundJob_deactivate_first_witness :
    ∃ v', findVoucherByPayID
        (runRefundJobVoucher refundDB witVoucher false .definitiveFailure false).1
        witVoucher.PayID
      = some v' ∧ v'.TotalPaidMsats = witVoucher.TotalPaidMsats
      ∧ v'.Active = true :=
  (refundJob_deactivate_first refundDB witVoucher false false .definitiveFailure
    (by decide)).2.1 rfl rfl rfl

/-- C9 counterexample: the three session-validation failures are NOT mapped
to one identical externally-visible response — the handler interpolates the
distinct error message into the response's `reason` field, so an unknown
`k1` and an already-used `k1` produce different JSON bodies. -/
theorem sessionFailure_responses_differ :
    (handleLNURLWithdrawCallback emptyDB 1000 0 "w2" "kused" "pr1"
        .success false).response = .errSession .k1NotFound
    ∧ (handleLNURLWithdrawCallback usedSessionDB 1000 0 "w2" "kused" "pr1"
        .success false).response = .errSession .k1AlreadyUsed
    ∧ (handleLNURLWithdrawCallback emptyDB 1000 0 "w2" "kused" "pr1"
        .success false).response.body
      ≠ (handleLNURLWithdrawCallback usedSessionDB 1000 0 "w2" "kused" "pr1"
        .success false).response.body := by
  decide

/-- C9 (amended): session validation fails distinctly for an unknown `k1`, a
`k1` of a different `withdraw_id`, and an already-used `k1` (the error
messages are pairwise distinct), each failure produces a protocol-level
`status:"ERROR"` response and never invokes the gateway — but the response
bodies differ across the three modes, because the `reason` field embeds the
distinct session-error message rather than only the logs differing. -/
theorem sessionFailure_uniform_status (db : DBState) (absExpirySecs now : Int)
    (withdrawID k1 pr : String) (e : SessionError) (outcome : PayOutcome)
    (deactivateFails : Bool) (hk1 : k1 ≠ "") (hpr : pr ≠ "")
    (herr : ValidateAndUseWithdrawSession db k1 withdrawID = .error e) :
    handleLNURLWithdrawCallback db absExpirySecs now withdrawID k1 pr outcome
        deactivateFails = ⟨.errSession e, false, db⟩
    ∧ (WithdrawResponse.errSession e).body.1 = "ERROR"
    ∧ (WithdrawResponse.errSession e).body.2
        = "invalid or already-used k1: " ++ e.message
    ∧ (∀ e1 e2 : SessionError, e1.message = e2.message → e1 = e2) := by
  refine ⟨?_, rfl, rfl, ?_⟩
  · simp [handleLNURLWithdrawCallback, hk1, hpr, herr]
  · intro e1 e2 hmsg
    cases e1 <;> cases e2 <;>
      first
        | rfl
        | exact absurd hmsg (by decide)

/-- C9 witness: the amended claim applied to an unknown `k1` on an empty
store. -/
theorem sessionFailure_uniform_status_witness :
    handleLNURLWithdrawCallback emptyDB 1000 0 "w1" "kz" "pr" .success false
      = ⟨.errSession .k1NotFound, false, emptyDB⟩ :=
  (sessionFailure_uniform_status emptyDB 1000 0 "w1" "kz" "pr" .k1NotFound
    .success false (by decide) (by decide) rfl).1

/-- `natBits` produces exactly `w` bits. -/
theorem natBits_length (w n : Nat) : (natBits w n).length = w := by
  induction w generalizing n with
  | zero => rfl
  | succ w ih => simp [natBits, ih]

/-- Two numbers agreeing on their low `w` bits have the same bit view. -/
theorem natBits_congr (w : Nat) {m n : Nat}
    (h : ∀ i, i < w → m.testBit i = n.testBit i) : natBits w m = natBits w n := by
  induction w with
  | zero => rfl
  | succ w ih =>
    simp only [natBits]
    rw [h w (Nat.lt_succ_self w), ih (fun i hi => h i (Nat.lt_succ_of_lt hi))]

/-- The bit view of zero. -/
theorem natBits_zero (w : Nat) : natBits w 0 = List.replicate w false := by
  induction w with
  | zero => rfl
  | succ w ih => simp [natBits, ih, List.replicate_succ]

/-- Splitting a bit view: the top `t` bits come from `n >>> b`. -/
theorem natBits_split (b t n : Nat) :
    natBits (b + t) n = natBits t (n >>> b) ++ natBits b n := by
  induction t with
  | zero => rfl
  | succ t ih =>
    show natBits ((b + t) + 1) n = _
    simp only [natBits, Nat.testBit_shiftRight, ih, List.cons_append]

/-- Masking with `2^k - 1` does not change the low `w ≤ k` bits. -/
theorem natBits_mask (w k n : Nat) (hw : w ≤ k) :
    natBits w (n &&& (2 ^ k - 1)) = natBits w n :=
  natBits_congr w (fun i hi => by
    simp [Nat.testBit_and, Nat.testBit_two_pow_sub_one, Nat.lt_of_lt_of_le hi hw])

/-- Bits of a value below `2^w` above position `w` are clear, so shifts pass
over it. -/
theorem or_shiftLeft_shiftRight (acc v w : Nat) (hv : v < 2 ^ w) :
    ((acc <<< w) ||| v) >>> w = acc := by
  apply Nat.eq_of_testBit_eq
  intro i
  have hvbit : v.testBit (w + i) = false :=
    Nat.testBit_lt_two_pow (Nat.lt_of_lt_of_le hv (Nat.pow_le_pow_right (by omega) (by omega)))
  simp [Nat.testBit_shiftRight, Nat.testBit_or, Nat.testBit_shiftLeft, hvbit]

/-- Shifting a value into the accumulator appends its bit view. -/
theorem natBits_or_shiftLeft (bits w acc v : Nat) (hv : v < 2 ^ w) :
    natBits (bits + w) ((acc <<< w) ||| v) = natBits bits acc ++ natBits w v := by
  rw [Nat.add_comm bits w, natBits_split w bits _,
    or_shiftLeft_shiftRight acc v w hv]
  congr 1
  apply natBits_congr
  intro i hi
  have : (acc <<< w).testBit i = false := by
    simp [Nat.testBit_shiftLeft, Nat.not_le.mpr hi]
  simp [Nat.testBit_or, this]

/-- The low `p` bits of `acc <<< p` are zero. -/
theorem natBits_shiftLeft_low (p acc : Nat) :
    natBits p (acc <<< p) = List.replicate p false := by
  rw [← natBits_zero p]
  apply natBits_congr
  intro i hi
  simp [Nat.testBit_shiftLeft, Nat.not_le.mpr hi]

/-- The bit view of the zero-padding flush value. -/
theorem natBits_pad_flush (w bits acc : Nat) (h : bits ≤ w) :
    natBits w ((acc <<< (w - bits)) &&& (2 ^ w - 1))
      = natBits bits acc ++ List.replicate (w - bits) false := by
  rw [natBits_mask w w _ (Nat.le_refl w)]
  have hshift : (acc <<< (w - bits)) >>> (w - bits) = acc := by
    simp
  have hsplit := natBits_split (w - bits) bits (acc <<< (w - bits))
  rw [show (w - bits) + bits = w from by omega] at hsplit
  rw [hsplit, hshift, natBits_shiftLeft_low]

/-- `bitStream` over a cons. -/
theorem bitStream_cons (w : Nat) (x : Nat) (xs : List Nat) :
    bitStream w (x :: xs) = natBits w x ++ bitStream w xs := by
  simp [bitStream]

/-- `bitStream` over an append. -/
theorem bitStream_append (w : Nat) (xs ys : List Nat) :
    bitStream w (xs ++ ys) = bitStream w xs ++ bitStream w ys := by
  simp [bitStream]

/-- Length of a bit stream. -/
theorem bitStream_length (w : Nat) (xs : List Nat) :
    (bitStream w xs).length = w * xs.length := by
  induction xs with
  | nil => simp [bitStream]
  | cons x xs ih =>
    rw [bitStream_cons]
    simp [natBits_length, ih, Nat.mul_succ, Nat.add_comm]

/-- Componentwise reading of an equal pair of bit views. -/
theorem natBits_testBit_eq (w : Nat) : ∀ {a b : Nat}, natBits w a = natBits w b →
    ∀ i, i < w → a.testBit i = b.testBit i := by
  induction w with
  | zero => intro a b _ i hi; omega
  | succ w ih =>
    intro a b h i hi
    simp only [natBits, List.cons.injEq] at h
    rcases Nat.lt_succ_iff_lt_or_eq.mp hi with hlt | heq
    · exact ih h.2 i hlt
    · rw [heq]; exact h.1

/-- Equal bit views of small numbers mean equal numbers. -/
theorem natBits_inj (w : Nat) {a b : Nat} (ha : a < 2 ^ w) (hb : b < 2 ^ w)
    (h : natBits w a = natBits w b) : a = b := by
  apply Nat.eq_of_testBit_eq
  intro i
  by_cases hi : i < w
  · exact natBits_testBit_eq w h i hi
  · rw [Nat.testBit_lt_two_pow (Nat.lt_of_lt_of_le ha (Nat.pow_le_pow_right (by omega) (by omega))),
      Nat.testBit_lt_two_pow (Nat.lt_of_lt_of_le hb (Nat.pow_le_pow_right (by omega) (by omega)))]

/-- Equal-length streams of small values are streams of equal lists. -/
theorem bitStream_inj (w : Nat) : ∀ (xs ys : List Nat),
    (∀ v ∈ xs, v < 2 ^ w) → (∀ v ∈ ys, v < 2 ^ w) → xs.length = ys.length →
    bitStream w xs = bitStream w ys → xs = ys := by
  intro xs
  induction xs with
  | nil =>
    intro ys _ _ hlen _
    exact (List.length_eq_zero.mp hlen.symm).symm
  | cons x xs ih =>
    intro ys hx hy hlen hstream
    cases ys with
    | nil => cases hlen
    | cons y ys =>
      rw [bitStream_cons, bitStream_cons] at hstream
      have hlen2 : (natBits w x).length = (natBits w y).length := by
        rw [natBits_length, natBits_length]
      obtain ⟨hhead, htail⟩ := List.append_inj hstream hlen2
      have hxy : x = y :=
        natBits_inj w (hx x (by simp)) (hy y (by simp)) hhead
      rw [hxy, ih ys (fun v hv => hx v (by simp [hv])) (fun v hv => hy v (by simp [hv]))
        (by simpa using hlen) htail]

/-- Specification of the emission loop: it peels whole `toBits` groups off
the pending bits, leaving fewer than `toBits` of them, and the emitted
stream plus the leftover view is exactly the initial pending view. -/
theorem convertBitsEmit_spec (toBits : Nat) (ht : 0 < toBits) :
    ∀ (fuel acc bits : Nat), bits ≤ fuel →
    bitStream toBits (convertBitsEmit toBits (2 ^ toBits - 1) fuel acc bits).1
        ++ natBits (convertBitsEmit toBits (2 ^ toBits - 1) fuel acc bits).2 acc
      = natBits bits acc
    ∧ (convertBitsEmit toBits (2 ^ toBits - 1) fuel acc bits).2 < toBits
    ∧ (∀ v ∈ (convertBitsEmit toBits (2 ^ toBits - 1) fuel acc bits).1,
        v < 2 ^ toBits) := by
  intro fuel
  induction fuel with
  | zero =>
    intro acc bits hb
    have hbz : bits = 0 := by omega
    subst hbz
    simp [convertBitsEmit, bitStream, ht]
  | succ fuel ih =>
    intro acc bits hb
    by_cases hge : toBits ≤ bits
    · have hrec := ih acc (bits - toBits) (by omega)
      simp only [convertBitsEmit, if_pos hge]
      refine ⟨?_, hrec.2.1, ?_⟩
      · rw [bitStream_cons, List.append_assoc, hrec.1,
          natBits_mask toBits toBits _ (Nat.le_refl toBits)]
        have hsplit := natBits_split (bits - toBits) toBits acc
        rw [show (bits - toBits) + toBits = bits from by omega] at hsplit
        rw [← hsplit]
      · intro v hv
        rcases List.mem_cons.mp hv with hv | hv
        · subst hv
          have hle : (acc >>> (bits - toBits)) &&& (2 ^ toBits - 1) ≤ 2 ^ toBits - 1 :=
            Nat.and_le_right
          have hpow : 0 < 2 ^ toBits := Nat.pos_pow_of_pos _ (by omega)
          omega
        · exact hrec.2.2 v hv
    · simp [convertBitsEmit, if_neg hge, bitStream, Nat.lt_of_not_le hge]

/-- Specification of the accumulation loop: the emitted stream plus the
final pending view equals the initial pending view plus the input stream;
the final pending count stays below `toBits` and every emitted value fits
`toBits` bits. -/
theorem convertBitsLoop_spec (fromBits toBits : Nat) (ht : 0 < toBits) :
    ∀ (data : List Nat), (∀ b ∈ data, b < 2 ^ fromBits) →
    ∀ acc bits, bits < toBits →
    bitStream toBits (convertBitsLoop fromBits toBits (2 ^ toBits - 1) data acc bits).1
        ++ natBits (convertBitsLoop fromBits toBits (2 ^ toBits - 1) data acc bits).2.2
            (convertBitsLoop fromBits toBits (2 ^ toBits - 1) data acc bits).2.1
      = natBits bits acc ++ bitStream fromBits data
    ∧ (convertBitsLoop fromBits toBits (2 ^ toBits - 1) data acc bits).2.2 < toBits
    ∧ (∀ v ∈ (convertBitsLoop fromBits toBits (2 ^ toBits - 1) data acc bits).1,
        v < 2 ^ toBits) := by
  intro data
  induction data with
  | nil =>
    intro _ acc bits hbits
    simp [convertBitsLoop, bitStream, hbits]
  | cons value rest ih =>
    intro hdata acc bits hbits
    have hvlt : value < 2 ^ fromBits := hdata value (by simp)
    have hem := convertBitsEmit_spec toBits ht (bits + fromBits)
      ((acc <<< fromBits) ||| value) (bits + fromBits) (Nat.le_refl _)
    have hrec := ih (fun b hb => hdata b (by simp [hb]))
      ((acc <<< fromBits) ||| value)
      (convertBitsEmit toBits (2 ^ toBits - 1) (bits + fromBits)
        ((acc <<< fromBits) ||| value) (bits + fromBits)).2 hem.2.1
    simp only [convertBitsLoop]
    refine ⟨?_, hrec.2.1, ?_⟩
    · rw [bitStream_append, List.append_assoc, hrec.1, ← List.append_assoc,
        hem.1, natBits_or_shiftLeft bits fromBits acc value hvlt,
        bitStream_cons, List.append_assoc]
    · intro v hv
      rcases List.mem_append.mp hv with hv | hv
      · exact hem.2.2 v hv
      · exact hrec.2.2 v hv

/-- Encoder direction of `convertBits` (`pad = true`): it never fails, all
output values fit `toBits` bits, and the output stream is the input stream
followed by fewer than `toBits` zero padding bits. -/
theorem convertBits_pad_spec (fromBits toBits : Nat) (ht : 0 < toBits)
    (data : List Nat) (hdata : ∀ b ∈ data, b < 2 ^ fromBits) :
    ∃ out p, convertBits data fromBits toBits true = .ok out
      ∧ (∀ v ∈ out, v < 2 ^ toBits)
      ∧ p < toBits
      ∧ bitStream toBits out = bitStream fromBits data ++ List.replicate p false := by
  have hloop := convertBitsLoop_spec fromBits toBits ht data hdata 0 0 ht
  unfold convertBits
  simp only [Nat.one_shiftLeft]
  set r := convertBitsLoop fromBits toBits (2 ^ toBits - 1) data 0 0 with hr
  by_cases hz : 0 < r.2.2
  · refine ⟨r.1 ++ [(r.2.1 <<< (toBits - r.2.2)) &&& (2 ^ toBits - 1)],
      toBits - r.2.2, by simp [hz], ?_, by omega, ?_⟩
    · intro v hv
      rcases List.mem_append.mp hv with hv | hv
      · exact hloop.2.2 v hv
      · have hone : v = (r.2.1 <<< (toBits - r.2.2)) &&& (2 ^ toBits - 1) := by
          simpa using hv
        have hle : (r.2.1 <<< (toBits - r.2.2)) &&& (2 ^ toBits - 1) ≤ 2 ^ toBits - 1 :=
          Nat.and_le_right
        have hpow : 0 < 2 ^ toBits := Nat.pos_pow_of_pos _ (by omega)
        omega
    · rw [bitStream_append, bitStream_cons,
        show bitStream toBits ([] : List Nat) = [] from rfl, List.append_nil,
        natBits_pad_flush toBits r.2.2 r.2.1 (Nat.le_of_lt hloop.2.1),
        ← List.append_assoc, hloop.1]
      simp [natBits]
  · have hz0 : r.2.2 = 0 := by omega
    refine ⟨r.1, 0, by simp [hz], hloop.2.2, ht, ?_⟩
    have := hloop.1
    rw [hz0] at this
    simpa [natBits] using this

/-- Decoder direction of `convertBits` (`pad = false`, five-to-eight bits):
if the input stream is a byte stream followed by fewer than five zero bits,
the conversion succeeds and returns exactly those bytes. -/
theorem convertBits_unpad_ok (s r : List Nat) (p : Nat)
    (hs : ∀ b ∈ s, b < 2 ^ 8) (hr : ∀ v ∈ r, v < 2 ^ 5) (hp : p < 5)
    (hstream : bitStream 5 r = bitStream 8 s ++ List.replicate p false) :
    convertBits r 5 8 false = .ok s := by
  have hloop := convertBitsLoop_spec 5 8 (by omega) r hr 0 0 (by omega)
  set q := convertBitsLoop 5 8 (2 ^ 8 - 1) r 0 0 with hq
  have hstreams : bitStream 8 q.1 ++ natBits q.2.2 q.2.1
      = bitStream 8 s ++ List.replicate p false := by
    have := hloop.1
    rw [hstream] at this
    simpa [natBits] using this
  have hlen := congrArg List.length hstreams
  rw [List.length_append, List.length_append, bitStream_length, bitStream_length,
    natBits_length, List.length_replicate] at hlen
  have hq22 : q.2.2 = p ∧ q.1.length = s.length := by
    have h8 : q.2.2 < 8 := hloop.2.1
    omega
  have hsplitEq := List.append_inj hstreams (by
    rw [bitStream_length, bitStream_length, hq22.2])
  have hout : q.1 = s :=
    bitStream_inj 8 q.1 s hloop.2.2 hs hq22.2 hsplitEq.1
  have hpad0 : (q.2.1 <<< (8 - q.2.2)) &&& (2 ^ 8 - 1) = 0 := by
    apply natBits_inj 8 (a := (q.2.1 <<< (8 - q.2.2)) &&& (2 ^ 8 - 1)) (b := 0)
    · have hle : (q.2.1 <<< (8 - q.2.2)) &&& (2 ^ 8 - 1) ≤ 2 ^ 8 - 1 :=
        Nat.and_le_right
      omega
    · exact Nat.pos_pow_of_pos _ (by omega)
    · rw [natBits_pad_flush 8 q.2.2 q.2.1 (by omega), natBits_zero,
        hsplitEq.2, hq22.1, ← List.replicate_add]
      congr 1
      omega
  unfold convertBits
  simp only [Nat.one_shiftLeft]
  rw [← hq, hout]
  have hcond : ¬ (5 ≤ q.2.2 ∨ (q.2.1 <<< (8 - q.2.2)) &&& (2 ^ 8 - 1) ≠ 0) := by
    push_neg
    exact ⟨by omega, hpad0⟩
  rw [if_neg hcond]
  simp

/-- The 8→5→8 `convertBits` round trip used by the LNURL codec. -/
theorem convertBits_roundtrip (s : List Nat) (hs : ∀ b ∈ s, b < 2 ^ 8) :
    ∃ out p, convertBits s 8 5 true = .ok out ∧ (∀ v ∈ out, v < 2 ^ 5)
      ∧ p < 5 ∧ bitStream 5 out = bitStream 8 s ++ List.replicate p false
      ∧ convertBits out 5 8 false = .ok s := by
  obtain ⟨out, p, hok, hlt, hplt, hstream⟩ :=
    convertBits_pad_spec 8 5 (by omega) s hs
  exact ⟨out, p, hok, hlt, hplt, hstream,
    convertBits_unpad_ok s out p hs hlt hplt hstream⟩

/-- xor of two numbers below a power of two stays below it. -/
theorem xor_lt_two_pow {a b n : Nat} (ha : a < 2 ^ n) (hb : b < 2 ^ n) :
    a ^^^ b < 2 ^ n := by
  apply Nat.lt_pow_two_of_testBit
  intro i hi
  rw [Nat.testBit_xor,
    Nat.testBit_lt_two_pow (Nat.lt_of_lt_of_le ha (Nat.pow_le_pow_right (by omega) hi)),
    Nat.testBit_lt_two_pow (Nat.lt_of_lt_of_le hb (Nat.pow_le_pow_right (by omega) hi))]
  rfl

/-- An xor on the start value factors out of the generator-taps fold. -/
theorem bech32Taps_foldl_xor (top : Nat) (l : List Nat) :
    ∀ acc d, l.foldl (fun c i => if (top >>> i) &&& 1 = 1 then
        c ^^^ bech32Generator.getD i 0 else c) (acc ^^^ d)
      = l.foldl (fun c i => if (top >>> i) &&& 1 = 1 then
          c ^^^ bech32Generator.getD i 0 else c) acc ^^^ d := by
  induction l with
  | nil => intro acc d; rfl
  | cons i l ih =>
    intro acc d
    simp only [List.foldl_cons]
    by_cases hc : (top >>> i) &&& 1 = 1
    · simp only [if_pos hc]
      have hswap : acc ^^^ d ^^^ bech32Generator.getD i 0
          = (acc ^^^ bech32Generator.getD i 0) ^^^ d := by
        rw [Nat.xor_assoc, Nat.xor_comm d, ← Nat.xor_assoc]
      rw [hswap, ih]
    · simp only [if_neg hc]
      exact ih acc d

/-- The polymod step is affine in its input value. -/
theorem bech32PolymodStep_eq_xor (chk v : Nat) :
    bech32PolymodStep chk v = bech32PolymodStep chk 0 ^^^ v := by
  unfold bech32PolymodStep
  have h0 : ((chk &&& 0x1ffffff) <<< 5) ^^^ v
      = (((chk &&& 0x1ffffff) <<< 5) ^^^ 0) ^^^ v := by rw [Nat.xor_zero]
  rw [h0, bech32Taps_foldl_xor]

/-- An xor below bit 25 passes through one polymod step as a shift by 5. -/
theorem bech32PolymodStep_xor_low (chk d v : Nat) (hd : d < 2 ^ 25) :
    bech32PolymodStep (chk ^^^ d) v = bech32PolymodStep chk v ^^^ (d <<< 5) := by
  have h31 : (0x1ffffff : Nat) = 2 ^ 25 - 1 := by norm_num
  have htop : (chk ^^^ d) >>> 25 = chk >>> 25 := by
    apply Nat.eq_of_testBit_eq
    intro i
    rw [Nat.testBit_shiftRight, Nat.testBit_shiftRight, Nat.testBit_xor,
      Nat.testBit_lt_two_pow
        (Nat.lt_of_lt_of_le hd (Nat.pow_le_pow_right (by omega) (by omega)))]
    simp
  have hinit : (((chk ^^^ d) &&& 0x1ffffff) <<< 5) ^^^ v
      = ((((chk &&& 0x1ffffff) <<< 5) ^^^ v) ^^^ (d <<< 5)) := by
    apply Nat.eq_of_testBit_eq
    intro i
    by_cases h5 : 5 ≤ i
    · by_cases h25 : i - 5 < 25
      · simp only [Nat.testBit_xor, Nat.testBit_shiftLeft, Nat.testBit_and, h31,
          Nat.testBit_two_pow_sub_one, h5, h25]
        cases hc : chk.testBit (i - 5) <;> cases hdd : d.testBit (i - 5) <;>
          cases hv : v.testBit i <;> simp
      · have hdb : d.testBit (i - 5) = false :=
          Nat.testBit_lt_two_pow
            (Nat.lt_of_lt_of_le hd (Nat.pow_le_pow_right (by omega) (by omega)))
        simp only [Nat.testBit_xor, Nat.testBit_shiftLeft, Nat.testBit_and, h31,
          Nat.testBit_two_pow_sub_one, h5, h25, hdb]
        cases hc : chk.testBit (i - 5) <;> cases hv : v.testBit i <;> simp
    · simp only [Nat.testBit_xor, Nat.testBit_shiftLeft, h5]
      cases hv : v.testBit i <;> simp
  unfold bech32PolymodStep
  rw [htop, hinit, bech32Taps_foldl_xor]

/-- The taps fold stays below `2^30` when it starts there. -/
theorem bech32Taps_foldl_lt (top : Nat) (l : List Nat)
    (hl : ∀ i ∈ l, bech32Generator.getD i 0 < 2 ^ 30) :
    ∀ acc, acc < 2 ^ 30 →
    l.foldl (fun c i => if (top >>> i) &&& 1 = 1 then
        c ^^^ bech32Generator.getD i 0 else c) acc < 2 ^ 30 := by
  induction l with
  | nil => intro acc h; exact h
  | cons i l ih =>
    intro acc h
    simp only [List.foldl_cons]
    apply ih (fun j hj => hl j (by simp [hj]))
    by_cases hc : (top >>> i) &&& 1 = 1
    · rw [if_pos hc]
      exact xor_lt_two_pow h (hl i (by simp))
    · rw [if_neg hc]
      exact h

/-- One polymod step stays below `2^30` (for values below `2^30`). -/
theorem bech32PolymodStep_lt (chk v : Nat) (hv : v < 2 ^ 30) :
    bech32PolymodStep chk v < 2 ^ 30 := by
  unfold bech32PolymodStep
  apply bech32Taps_foldl_lt _ _ (by decide)
  apply xor_lt_two_pow _ hv
  have h1 : chk &&& 0x1ffffff ≤ 0x1ffffff := Nat.and_le_right
  have h2 : (chk &&& 0x1ffffff) <<< 5 = (chk &&& 0x1ffffff) * 32 := by
    rw [Nat.shiftLeft_eq]
  have h3 : (2 : Nat) ^ 30 = 0x20000000 * 2 := by norm_num
  omega

/-- The polymod register stays below `2^30` over 5-bit values. -/
theorem bech32Polymod_foldl_lt (values : List Nat) (hv : ∀ v ∈ values, v < 32) :
    ∀ chk, chk < 2 ^ 30 → values.foldl bech32PolymodStep chk < 2 ^ 30 := by
  induction values with
  | nil => intro chk h; exact h
  | cons v values ih =>
    intro chk h
    simp only [List.foldl_cons]
    refine ih (fun x hx => hv x (by simp [hx])) _
      (bech32PolymodStep_lt chk v ?_)
    have := hv v (by simp)
    omega

/-- `bech32Polymod` of 5-bit values is below `2^30`. -/
theorem bech32Polymod_lt (values : List Nat) (hv : ∀ v ∈ values, v < 32) :
    bech32Polymod values < 2 ^ 30 :=
  bech32Polymod_foldl_lt values hv 1 (by norm_num)

/-- An xor on the register before a run of values emerges shifted by 5 bits
per value (as long as it never reaches the feedback taps). -/
theorem bech32Polymod_foldl_xor : ∀ (cs : List Nat) (chk d : Nat),
    d <<< (5 * cs.length) < 2 ^ 30 →
    List.foldl bech32PolymodStep (chk ^^^ d) cs
      = List.foldl bech32PolymodStep chk cs ^^^ (d <<< (5 * cs.length)) := by
  intro cs
  induction cs with
  | nil =>
    intro chk d _
    simp
  | cons c rest ih =>
    intro chk d hd
    have hdlt : d < 2 ^ 25 := by
      by_contra hge
      push_neg at hge
      have hmul : 2 ^ 25 * 2 ^ 5 ≤ d * 2 ^ (5 * (rest.length + 1)) :=
        Nat.mul_le_mul hge (Nat.pow_le_pow_right (by omega) (by omega))
      rw [Nat.shiftLeft_eq] at hd
      have h30 : (2 : Nat) ^ 25 * 2 ^ 5 = 2 ^ 30 := by norm_num
      simp only [List.length_cons] at hd
      omega
    have hshift : (d <<< 5) <<< (5 * rest.length) = d <<< (5 * (rest.length + 1)) := by
      rw [← Nat.shiftLeft_add]
      congr 1
      ring
    simp only [List.foldl_cons, List.length_cons]
    rw [bech32PolymodStep_xor_low chk d c hdlt,
      ih (bech32PolymodStep chk c) (d <<< 5) (by rw [hshift]; simpa using hd),
      hshift]

/-- Running arbitrary 5-bit values differs from running zeros exactly by the
big-endian chunk value of the list. -/
theorem bech32Polymod_foldl_zeros : ∀ (cs : List Nat), (∀ c ∈ cs, c < 32) →
    5 * cs.length ≤ 30 → ∀ chk,
    List.foldl bech32PolymodStep chk cs
      = List.foldl bech32PolymodStep chk (List.replicate cs.length 0)
        ^^^ bech32ChunksValue cs := by
  intro cs
  induction cs with
  | nil =>
    intro _ _ chk
    simp [bech32ChunksValue]
  | cons c rest ih =>
    intro hcs hlen chk
    simp only [List.foldl_cons, List.length_cons, List.replicate_succ]
    have hc : c < 32 := hcs c (by simp)
    have hshift : c <<< (5 * rest.length) < 2 ^ 30 := by
      rw [Nat.shiftLeft_eq]
      have hbound : 32 * 2 ^ (5 * rest.length) ≤ 2 ^ 30 := by
        have h32 : (32 : Nat) * 2 ^ (5 * rest.length) = 2 ^ (5 * rest.length + 5) := by
          rw [pow_add]
          ring
        rw [h32]
        apply Nat.pow_le_pow_right (by omega)
        simp only [List.length_cons] at hlen
        omega
      have hmul : c * 2 ^ (5 * rest.length) < 32 * 2 ^ (5 * rest.length) :=
        Nat.mul_lt_mul_of_lt_of_le hc (Nat.le_refl _) (Nat.pos_pow_of_pos _ (by omega))
      omega
    rw [bech32PolymodStep_eq_xor chk c,
      bech32Polymod_foldl_xor rest (bech32PolymodStep chk 0) c hshift,
      ih (fun x hx => hcs x (by simp [hx]))
        (by simp only [List.length_cons] at hlen; omega) (bech32PolymodStep chk 0),
      bech32ChunksValue, Nat.xor_assoc]
    congr 1
    rw [Nat.xor_comm]

/-- Splitting a number at bit `k` and recombining restores it. -/
theorem nat_recompose (n k : Nat) :
    ((n >>> k) <<< k) ^^^ (n &&& (2 ^ k - 1)) = n := by
  apply Nat.eq_of_testBit_eq
  intro i
  by_cases hi : i < k
  · simp [Nat.testBit_xor, Nat.testBit_shiftLeft, Nat.testBit_and,
      Nat.testBit_two_pow_sub_one, hi, Nat.not_le.mpr hi]
  · push_neg at hi
    simp only [Nat.testBit_xor, Nat.testBit_shiftLeft, Nat.testBit_shiftRight,
      Nat.testBit_and, Nat.testBit_two_pow_sub_one, hi, decide_eq_true_eq]
    have h1 : ¬ i < k := Nat.not_lt.mpr hi
    have h2 : k + (i - k) = i := by omega
    simp [hi, h1, h2]

/-- Bit `b` of 31 is set exactly when `b < 5`. -/
theorem testBit_31 (b : Nat) : Nat.testBit 31 b = decide (b < 5) := by
  have h31 : (31 : Nat) = 2 ^ 5 - 1 := by norm_num
  rw [h31, Nat.testBit_two_pow_sub_one]

/-- A 5-bit value is untouched by masking with 31. -/
theorem and_31_of_lt {x : Nat} (hx : x < 32) : x &&& 31 = x := by
  apply Nat.eq_of_testBit_eq
  intro i
  by_cases hi : i < 5
  · simp [Nat.testBit_and, testBit_31, hi]
  · have hxb : x.testBit i = false :=
      Nat.testBit_lt_two_pow
        (Nat.lt_of_lt_of_le (by omega : x < 2 ^ 5)
          (Nat.pow_le_pow_right (by omega) (by omega)))
    simp [Nat.testBit_and, testBit_31, hi, hxb]

/-- Reading a number back from its big-endian 5-bit chunks. -/
theorem bech32Chunks_recompose : ∀ (j m : Nat), m < 2 ^ (5 * j) →
    bech32ChunksValue ((List.range j).map
      (fun i => (m >>> (5 * (j - 1 - i))) &&& 31)) = m := by
  intro j
  induction j with
  | zero =>
    intro m hm
    have : m = 0 := by simpa using hm
    simp [this, bech32ChunksValue]
  | succ j ih =>
    intro m hm
    rw [List.range_succ_eq_map, List.map_cons, List.map_map]
    have htail : (List.range j).map
        ((fun i => (m >>> (5 * (j + 1 - 1 - i))) &&& 31) ∘ (fun i => i + 1))
        = (List.range j).map
          (fun i => ((m &&& (2 ^ (5 * j) - 1)) >>> (5 * (j - 1 - i))) &&& 31) := by
      apply List.map_congr_left
      intro i hi
      have hij : i < j := List.mem_range.mp hi
      have hidx : j + 1 - 1 - (i + 1) = j - 1 - i := by omega
      rw [Function.comp_apply, hidx]
      apply Nat.eq_of_testBit_eq
      intro b
      by_cases hb : b < 5
      · have hpos : 5 * (j - 1 - i) + b < 5 * j := by omega
        simp [Nat.testBit_and, testBit_31, Nat.testBit_shiftRight,
          Nat.testBit_two_pow_sub_one, hb, hpos]
      · simp [Nat.testBit_and, testBit_31, hb]
    rw [htail, bech32ChunksValue]
    simp only [List.length_map, List.length_range, Nat.add_sub_cancel, Nat.sub_zero]
    rw [ih (m &&& (2 ^ (5 * j) - 1)) (by
      have hle : m &&& (2 ^ (5 * j) - 1) ≤ 2 ^ (5 * j) - 1 := Nat.and_le_right
      have hpos : 0 < 2 ^ (5 * j) := Nat.pos_pow_of_pos _ (by omega)
      omega)]
    have hsmall : (m >>> (5 * j)) &&& 31 = m >>> (5 * j) := by
      apply and_31_of_lt
      rw [Nat.shiftRight_eq_div_pow]
      apply Nat.div_lt_of_lt_mul
      have h2 : (2 : Nat) ^ (5 * (j + 1)) = 2 ^ (5 * j) * 32 := by
        rw [show 5 * (j + 1) = 5 * j + 5 from by ring, pow_add]
        norm_num
      omega
    rw [hsmall, nat_recompose]

/-- Shape of the created checksum: six 5-bit values whose chunk value is the
xor-adjusted polymod remainder. -/
theorem bech32CreateChecksum_spec (hrp data : List Nat)
    (hall : ∀ v ∈ bech32HRPExpand hrp ++ data, v < 32) :
    (bech32CreateChecksum hrp data).length = 6
    ∧ (∀ v ∈ bech32CreateChecksum hrp data, v < 32)
    ∧ bech32ChunksValue (bech32CreateChecksum hrp data)
        = bech32Polymod (bech32HRPExpand hrp ++ data ++ [0, 0, 0, 0, 0, 0]) ^^^ 1 := by
  have hvals : ∀ v ∈ bech32HRPExpand hrp ++ data ++ [0, 0, 0, 0, 0, 0], v < 32 := by
    intro v hv
    rcases List.mem_append.mp hv with hv | hv
    · exact hall v hv
    · simp only [List.mem_cons, List.not_mem_nil, or_false] at hv
      rcases hv with h | h | h | h | h | h <;> omega
  have hpm : bech32Polymod (bech32HRPExpand hrp ++ data ++ [0, 0, 0, 0, 0, 0]) ^^^ 1
      < 2 ^ 30 :=
    xor_lt_two_pow (bech32Polymod_lt _ hvals) (by norm_num)
  refine ⟨by simp [bech32CreateChecksum], ?_, ?_⟩
  · intro v hv
    simp only [bech32CreateChecksum, List.mem_map] at hv
    obtain ⟨i, -, hi⟩ := hv
    have : v ≤ 31 := by
      rw [← hi]
      exact Nat.and_le_right
    omega
  · show bech32ChunksValue ((List.range 6).map
      (fun i => ((bech32Polymod (bech32HRPExpand hrp ++ data ++ [0, 0, 0, 0, 0, 0]) ^^^ 1)
        >>> (5 * (5 - i))) &&& 31)) = _
    have h6 := bech32Chunks_recompose 6
      (bech32Polymod (bech32HRPExpand hrp ++ data ++ [0, 0, 0, 0, 0, 0]) ^^^ 1)
      (by simpa using hpm)
    simpa using h6

/-- The bech32 verification identity: a polymod over expanded prefix, data
and the created checksum equals 1. -/
theorem bech32_verify (hrp data : List Nat)
    (hall : ∀ v ∈ bech32HRPExpand hrp ++ data, v < 32) :
    bech32Polymod (bech32HRPExpand hrp ++ (data ++ bech32CreateChecksum hrp data))
      = 1 := by
  obtain ⟨hlen, hlt, hchunks⟩ := bech32CreateChecksum_spec hrp data hall
  rw [← List.append_assoc]
  unfold bech32Polymod
  rw [List.foldl_append,
    bech32Polymod_foldl_zeros (bech32CreateChecksum hrp data) hlt
      (by rw [hlen]) _,
    hlen, hchunks]
  rw [show List.replicate 6 (0 : Nat) = [0, 0, 0, 0, 0, 0] from rfl,
    ← List.foldl_append, List.append_assoc]
  show bech32Polymod _ ^^^ _ = 1
  rw [← Nat.xor_assoc, Nat.xor_self, Nat.zero_xor]

/-- `takeWhile`/`dropWhile` split at the first failing element. -/
theorem takeWhile_dropWhile_split {α : Type} (p : α → Bool) :
    ∀ (xs : List α) (y : α) (ys : List α), (∀ x ∈ xs, p x = true) → p y = false →
    (xs ++ y :: ys).takeWhile p = xs ∧ (xs ++ y :: ys).dropWhile p = y :: ys := by
  intro xs
  induction xs with
  | nil =>
    intro y ys _ hy
    simp [List.takeWhile_cons, List.dropWhile_cons, hy]
  | cons x xs ih =>
    intro y ys hx hy
    have hpx : p x = true := hx x (by simp)
    obtain ⟨h1, h2⟩ := ih y ys (fun a ha => hx a (by simp [ha])) hy
    simp [List.takeWhile_cons, List.dropWhile_cons, hpx, h1, h2]

/-- `splitAtLastOne` on a string whose data part is free of `'1'`. -/
theorem splitAtLastOne_append (hrp d : List Nat) (hd : ∀ c ∈ d, c ≠ 49) :
    splitAtLastOne (hrp ++ 49 :: d) = some (hrp, d) := by
  unfold splitAtLastOne
  have hrev : (hrp ++ 49 :: d).reverse = d.reverse ++ 49 :: hrp.reverse := by
    simp
  have hall : ∀ c ∈ d.reverse, (fun c => decide (c ≠ 49)) c = true := by
    intro c hc
    simpa using hd c (List.mem_reverse.mp hc)
  have h49 : (fun c => decide (c ≠ 49)) 49 = false := by decide
  obtain ⟨ht, hdr⟩ := takeWhile_dropWhile_split (fun c => decide (c ≠ 49))
    d.reverse 49 hrp.reverse hall h49
  rw [hrev, hdr, ht]
  simp

/-- `mapToCharset` succeeds on 5-bit values and is the charset lookup map. -/
theorem mapToCharset_ok : ∀ (syms : List Nat), (∀ v ∈ syms, v < 32) →
    mapToCharset syms = .ok (syms.map (fun v => bech32Charset.getD v 0)) := by
  intro syms
  induction syms with
  | nil => intro _; rfl
  | cons c rest ih =>
    intro h
    have hc : c < 32 := h c (by simp)
    have hlen : ¬ (bech32Charset.length ≤ c) := by
      rw [show bech32Charset.length = 32 from rfl]
      omega
    simp [mapToCharset, hlen, ih (fun v hv => h v (by simp [hv]))]

/-- The charset lookup is injectively reversed by `findIdx?`. -/
theorem charset_findIdx_getD : ∀ v < 32,
    bech32Charset.findIdx? (fun x => x == bech32Charset.getD v 0) = some v := by
  decide

/-- `mapFromCharset` undoes the charset lookup map. -/
theorem mapFromCharset_inv : ∀ (syms : List Nat), (∀ v ∈ syms, v < 32) →
    mapFromCharset (syms.map (fun v => bech32Charset.getD v 0)) = some syms := by
  intro syms
  induction syms with
  | nil => intro _; rfl
  | cons c rest ih =>
    intro h
    have hc : c < 32 := h c (by simp)
    simp only [List.map_cons, mapFromCharset]
    rw [charset_findIdx_getD c hc, ih (fun v hv => h v (by simp [hv]))]

/-- Upper- then lowercasing a charset byte is the identity, and no charset
byte is `'1'`. -/
theorem charset_byte_facts : ∀ v < 32,
    toLowerByte (toUpperByte (bech32Charset.getD v 0)) = bech32Charset.getD v 0
    ∧ bech32Charset.getD v 0 ≠ 49 := by
  decide

/-- The expanded `"lnurl"` prefix is 5-bit values. -/
theorem lnurl_expand_lt : ∀ v ∈ bech32HRPExpand lnurlHRP, v < 32 := by
  decide

/-- Upper- then lowercasing any byte of `"lnurl1"` is the identity. -/
theorem lnurl1_case_id : ∀ c ∈ lnurlHRP ++ [49], toLowerByte (toUpperByte c) = c := by
  decide

/-- C8: for every byte string `s`, `EncodeLNURL` succeeds, its output begins
with the bytes of `"LNURL1"`, and `DecodeLNURL` maps it back to exactly `s`
(the encoder is from `lnurl.go`; the decoder is modelled from spec §4.1
since its definition is not under `src/`). -/
theorem lnurl_encode_decode_roundtrip (s : List Nat) (hs : ∀ b ∈ s, b < 256) :
    ∃ enc, EncodeLNURL s = .ok enc
      ∧ enc.take 6 = [76, 78, 85, 82, 76, 49]
      ∧ DecodeLNURL enc = .ok s := by
  obtain ⟨converted, p, hconv, hlt5, hp, hstream, hback⟩ :=
    convertBits_roundtrip s (by
      intro b hb
      have := hs b hb
      omega)
  have hexp : ∀ v ∈ bech32HRPExpand lnurlHRP ++ converted, v < 32 := by
    intro v hv
    rcases List.mem_append.mp hv with hv | hv
    · exact lnurl_expand_lt v hv
    · have := hlt5 v hv
      omega
  have hcs_spec := bech32CreateChecksum_spec lnurlHRP converted hexp
  have hcomb_lt : ∀ v ∈ converted ++ bech32CreateChecksum lnurlHRP converted,
      v < 32 := by
    intro v hv
    rcases List.mem_append.mp hv with hv | hv
    · have := hlt5 v hv
      omega
    · exact hcs_spec.2.1 v hv
  have hmap := mapToCharset_ok
    (converted ++ bech32CreateChecksum lnurlHRP converted) hcomb_lt
  refine ⟨(lnurlHRP ++ [49]
      ++ (converted ++ bech32CreateChecksum lnurlHRP converted).map
        (fun v => bech32Charset.getD v 0)).map toUpperByte, ?_, ?_, ?_⟩
  · simp only [EncodeLNURL, hconv, hmap]
  · rfl
  · have hchars : ∀ c ∈ (converted ++ bech32CreateChecksum lnurlHRP converted).map
        (fun v => bech32Charset.getD v 0),
        toLowerByte (toUpperByte c) = c ∧ c ≠ 49 := by
      intro c hc
      obtain ⟨v, hv, rfl⟩ := List.mem_map.mp hc
      exact charset_byte_facts v (hcomb_lt v hv)
    have hlower : ((lnurlHRP ++ [49]
        ++ (converted ++ bech32CreateChecksum lnurlHRP converted).map
          (fun v => bech32Charset.getD v 0)).map toUpperByte).map toLowerByte
        = lnurlHRP ++ 49 :: (converted ++ bech32CreateChecksum lnurlHRP converted).map
            (fun v => bech32Charset.getD v 0) := by
      rw [List.map_map]
      have hid : ∀ c ∈ lnurlHRP ++ [49]
          ++ (converted ++ bech32CreateChecksum lnurlHRP converted).map
            (fun v => bech32Charset.getD v 0),
          (toLowerByte ∘ toUpperByte) c = c := by
        intro c hc
        rcases List.mem_append.mp hc with hc | hc
        · exact lnurl1_case_id c hc
        · exact (hchars c hc).1
      rw [List.map_congr_left hid]
      simp
      rfl
    have hno49 : ∀ c ∈ (converted ++ bech32CreateChecksum lnurlHRP converted).map
        (fun v => bech32Charset.getD v 0), c ≠ 49 :=
      fun c hc => (hchars c hc).2
    have hsplit := splitAtLastOne_append lnurlHRP _ hno49
    have hver : bech32Polymod (bech32HRPExpand lnurlHRP
        ++ (converted ++ bech32CreateChecksum lnurlHRP converted)) = 1 :=
      bech32_verify lnurlHRP converted hexp
    have hfrom := mapFromCharset_inv
      (converted ++ bech32CreateChecksum lnurlHRP converted) hcomb_lt
    have hlen6 : ¬ (((converted ++ bech32CreateChecksum lnurlHRP converted).map
        (fun v => bech32Charset.getD v 0)).length < 6) := by
      rw [List.length_map, List.length_append, hcs_spec.1]
      omega
    have htake : (converted ++ bech32CreateChecksum lnurlHRP converted).take
        ((converted ++ bech32CreateChecksum lnurlHRP converted).length - 6)
        = converted := by
      rw [List.length_append, hcs_spec.1, Nat.add_sub_cancel, List.take_left]
    unfold DecodeLNURL
    rw [hlower, hsplit]
    show (if (List.map (fun v => bech32Charset.getD v 0)
          (converted ++ bech32CreateChecksum lnurlHRP converted)).length < 6 then
        Except.error "data too short"
      else
        match mapFromCharset (List.map (fun v => bech32Charset.getD v 0)
            (converted ++ bech32CreateChecksum lnurlHRP converted)) with
        | none => Except.error "invalid character"
        | some values =>
          if bech32Polymod (bech32HRPExpand lnurlHRP ++ values) ≠ 1 then
            Except.error "invalid checksum"
          else convertBits (values.take (values.length - 6)) 5 8 false)
      = Except.ok s
    rw [if_neg hlen6, hfrom]
    show (if bech32Polymod (bech32HRPExpand lnurlHRP
          ++ (converted ++ bech32CreateChecksum lnurlHRP converted)) ≠ 1 then
        Except.error "invalid checksum"
      else convertBits ((converted ++ bech32CreateChecksum lnurlHRP converted).take
          ((converted ++ bech32CreateChecksum lnurlHRP converted).length - 6)) 5 8 false)
      = Except.ok s
    rw [if_neg (fun h => h hver), htake, hback]

/-- C8 witness: the round trip evaluated at the concrete byte string
`"hi"` (`[104, 105]`). -/
theorem lnurl_encode_decode_roundtrip_witness :
    ∃ enc, EncodeLNURL [104, 105] = .ok enc
      ∧ enc.take 6 = [76, 78, 85, 82, 76, 49]
      ∧ DecodeLNURL enc = .ok [104, 105] :=
  lnurl_encode_decode_roundtrip [104, 105] (by decide)
